import Mathlib

/-
Verification development for the rule compiler and query engine of
src/parser.py.

The source compiles each syntactic construct into a pair (fvs, ev) of a
set of free-variable names and an evaluation function; the evaluators
build runtime terms and goals for an external relational engine (the
pythological module, which is not part of src/).  The embedding below
translates every constructor of parser.py directly; the pieces of the
external engine the claims need (fresh variables, unification, the search
driver, the binding state) are modelled from the specification and marked
as such in their doc comments.

Two systematic modelling choices, both explained where they are used:
 *  Python object identity of logic variables (Var) is modelled by a Nat
    counter threaded through every evaluator: each allocation returns the
    current counter value as the variable's identity and bumps it.
 *  In parser.py every evaluator receives the program (the predicate
    database) as its first argument, but the only place any evaluator
    reads it is inside the thunk that mk_call delays
    (program[symbol](*ev_terms(...))).  The embedding therefore passes
    the database to the search driver instead, which consults it exactly
    when it forces a suspension; a session has a single database, so the
    two formulations agree.
-/

set_option maxHeartbeats 1000000
set_option maxRecDepth 8192

namespace Pytho

/-- Runtime errors: the Python exceptions parser.py can raise (KeyError
from dict lookups, IndexError from tuple indexing, AssertionError raised
by list_elements, TypeError from indexing a non-sequence), plus an
out-of-fuel marker used by the fueled search driver of the modelled
engine, always kept distinct from genuine results. -/
inductive Err where
  | keyError (key : String)
  | indexError
  | assertionError
  | typeError
  | outOfFuel
deriving DecidableEq

/-- Python runtime values flowing through the evaluators of parser.py:
tuples (compound terms such as ('Cons', h, t) and ('Nil',), and also the
bare argument tuples passed to a relation), string and integer scalars,
and logic variables.  A Var's object identity is modelled by the Nat tag;
fresh-variable creation is engine code, modelled from the spec:
"fresh-variable(name-hint) returns a new identity-bearing placeholder". -/
inductive Term where
  | tup (elems : List Term)
  | str (s : String)
  | int (n : Int)
  | var (id : Nat) (hint : String)

mutual

/-- Structural equality test for runtime values (Python's == on the
tuple/str/int representation; Vars compare by identity tag). -/
def Term.decEq : (a b : Term) → Decidable (a = b)
  | .tup as, .tup bs =>
      match Term.decEqList as bs with
      | isTrue h => isTrue (by rw [h])
      | isFalse h => isFalse (by intro hh; injection hh; contradiction)
  | .tup _, .str _ => isFalse (by intro hh; exact Term.noConfusion hh)
  | .tup _, .int _ => isFalse (by intro hh; exact Term.noConfusion hh)
  | .tup _, .var _ _ => isFalse (by intro hh; exact Term.noConfusion hh)
  | .str _, .tup _ => isFalse (by intro hh; exact Term.noConfusion hh)
  | .str a, .str b =>
      if h : a = b then isTrue (by rw [h])
      else isFalse (by intro hh; injection hh; contradiction)
  | .str _, .int _ => isFalse (by intro hh; exact Term.noConfusion hh)
  | .str _, .var _ _ => isFalse (by intro hh; exact Term.noConfusion hh)
  | .int _, .tup _ => isFalse (by intro hh; exact Term.noConfusion hh)
  | .int _, .str _ => isFalse (by intro hh; exact Term.noConfusion hh)
  | .int a, .int b =>
      if h : a = b then isTrue (by rw [h])
      else isFalse (by intro hh; injection hh; contradiction)
  | .int _, .var _ _ => isFalse (by intro hh; exact Term.noConfusion hh)
  | .var _ _, .tup _ => isFalse (by intro hh; exact Term.noConfusion hh)
  | .var _ _, .str _ => isFalse (by intro hh; exact Term.noConfusion hh)
  | .var _ _, .int _ => isFalse (by intro hh; exact Term.noConfusion hh)
  | .var i a, .var j b =>
      if h : i = j ∧ a = b then isTrue (by rw [h.1, h.2])
      else isFalse (by intro hh; injection hh with h1 h2; exact h ⟨h1, h2⟩)

/-- Componentwise equality test for lists of runtime values. -/
def Term.decEqList : (as bs : List Term) → Decidable (as = bs)
  | [], [] => isTrue rfl
  | [], _ :: _ => isFalse (by intro h; cases h)
  | _ :: _, [] => isFalse (by intro h; cases h)
  | a :: as, b :: bs =>
      match Term.decEq a b with
      | isFalse h => isFalse (by intro hh; injection hh; contradiction)
      | isTrue h =>
          match Term.decEqList as bs with
          | isTrue h2 => isTrue (by rw [h, h2])
          | isFalse h2 => isFalse (by intro hh; injection hh; contradiction)

end

instance : DecidableEq Term := Term.decEq

/-- Modelled from the spec: the engine's binding state ("opaque
substitution ... threaded through goal evaluation"), an association list
from Var identity to bound term. -/
abbrev State := List (Nat × Term)

/-- Modelled from the spec: the engine's empty-state, "nothing bound yet". -/
def emptyS : State := []

/-- Looks a Var identity up in the substitution (the first binding
wins; the engine never binds the same variable twice). -/
def lookupId (id : Nat) : State → Option Term
  | [] => none
  | (j, t) :: rest => if j = id then some t else lookupId id rest

/-- Chain-following walk bounded by an explicit step count. -/
def walkF : Nat → State → Term → Term
  | 0, _, t => t
  | f + 1, s, t =>
      match t with
      | .var id hint =>
          match lookupId id s with
          | some t' => walkF f s t'
          | none => .var id hint
      | t => t

/-- Modelled from the spec: following a variable's binding chain in the
substitution until an unbound variable or a non-variable value is
reached.  A chain in a substitution the engine builds visits pairwise
distinct keys (a variable is bound only while unbound), so its length is
bounded by the substitution's size, which the step count covers. -/
def walk (s : State) (t : Term) : Term := walkF (s.length + 1) s t

/-- Pairwise unification of tuple components with the element unifier
passed in, threading the extended substitution left to right; tuples of
different lengths fail. -/
def unifyList (uf : Term → Term → State → Except Err (Option State)) :
    List Term → List Term → State → Except Err (Option State)
  | [], [], s => .ok (some s)
  | [], _ :: _, _ => .ok none
  | _ :: _, [], _ => .ok none
  | e :: es', f :: fs', s =>
      match uf e f s with
      | .error err => .error err
      | .ok none => .ok none
      | .ok (some s') => unifyList uf es' fs' s'

/-- Modelled from the spec: "unify(a, b) — goal: succeeds (possibly
extending the binding state) iff a and b can be made equal; fails
otherwise".  Unification failure is the .ok none outcome, a normal result
silently absorbed by the search; fuel exhaustion is an error and never
conflated with failure. -/
def unify : Nat → Term → Term → State → Except Err (Option State)
  | 0, _, _, _ => .error .outOfFuel
  | fuel + 1, u, v, s =>
    match walk s u, walk s v with
    | .var i hi, .var j hj =>
        if i = j then .ok (some s) else .ok (some ((i, Term.var j hj) :: s))
    | .var i _, v' => .ok (some ((i, v') :: s))
    | u', .var j _ => .ok (some ((j, u') :: s))
    | .tup es, .tup fs => unifyList (unify fuel) es fs s
    | .str a, .str b => .ok (if a = b then some s else none)
    | .int a, .int b => .ok (if a = b then some s else none)
    | _, _ => .ok none

/-- Goals handed to the relational engine.  fail, succeed, eq, both and
either mirror the engine combinators parser.py imports.  call models the
single delayed goal parser.py ever constructs, mk_call's
delay(lambda: program[symbol](*ev_terms(program, args, variables))): it
carries the called symbol together with the suspended evaluation of the
argument terms (a function of the allocation counter only, since term
evaluators read neither the program nor the call arguments); the database
itself is consulted only when the search driver forces the suspension
(see pull below), exactly as in the source, where the delayed thunk is
the only code that reads the program. -/
inductive Goal where
  | fail
  | succeed
  | eq (a b : Term)
  | both (g1 g2 : Goal)
  | either (g1 g2 : Goal)
  | call (sym : String) (argsThunk : Nat → Except Err (List Term × Nat))

/-- The callable relation a predicate symbol is bound to: given the call
arguments and the current allocation counter, produce the disjunction
goal over the predicate's clauses (make_function's fn). -/
abbrev Fn := List Term → Nat → Except Err (Goal × Nat)

/-- "A map from rule name to function" (class Program); association list
keyed by predicate symbol. -/
abbrev Program := List (String × Fn)

/-- The per-invocation mapping from variable name to Var (the
`variables` argument of every evaluator). -/
abbrev VarEnv := List (String × Term)

/-- The evaluation half of a compiled pair: parser.py's ev functions take
(program, args, variables); here args and variables are explicit, the
allocation counter is threaded for Var identity, and the program argument
is omitted because no evaluator reads it outside mk_call's delayed thunk
(see the header comment). -/
abbrev Ev (α : Type) := List Term → VarEnv → Nat → Except Err (α × Nat)

/-- A compiled (fvs, ev) pair: the set of free-variable names (kept as a
duplicate-free list to fix an allocation order) and the evaluator. -/
abbrev Compiled (α : Type) := List String × Ev α

instance : Nonempty (Ev α) := ⟨fun _ _ _ => .error .outOfFuel⟩

instance : Nonempty (Compiled α) := ⟨([], fun _ _ _ => .error .outOfFuel)⟩

/-- Association-list lookup keyed by strings (Python dict lookup,
returning none where Python would raise KeyError). -/
def alookup {α : Type} (key : String) : List (String × α) → Option α
  | [] => none
  | (k, v) :: rest => if k = key then some v else alookup key rest

/-- Union of free-variable name sets (Python set union; the model keeps
duplicate-free lists in first-occurrence order, fixing an operationally
irrelevant iteration order for the fresh-variable allocations that
make_function and ask perform over these names). -/
def unionFv (a b : List String) : List String :=
  a ++ b.filter (fun x => decide (¬ x ∈ a))

/-- Union over a list of free-variable sets (set().union(*[...])). -/
def unionAll (l : List (List String)) : List String :=
  l.foldr unionFv []

/-- Runs evaluators left to right, threading the allocation counter and
propagating errors, returning all results positionally: the body of
collect's ev_all, tuple(ev(program, args, variables) for ev in evs). -/
def evalEvs {α : Type} (evs : List (Ev α)) (args : List Term) (env : VarEnv)
    (c : Nat) : Except Err (List α × Nat) :=
  match evs with
  | [] => .ok ([], c)
  | ev :: rest =>
      match ev args env c with
      | .error e => .error e
      | .ok (v, c1) =>
          match evalEvs rest args env c1 with
          | .error e => .error e
          | .ok (vs, c2) => .ok (v :: vs, c2)

/-- collect (parser.py:131-138): given (fvs, ev) pairs, return the pair
of the union of the fvs and an evaluator calling each ev in order and
returning all their values. -/
def collect {α : Type} (pairs : List (Compiled α)) : Compiled (List α) :=
  (unionAll (pairs.map Prod.fst),
   fun args env c => evalEvs (pairs.map Prod.snd) args env c)

/-- foldr (parser.py:210-213): right fold with z as the rightmost seed. -/
def foldr {α β : Type} (f : α → β → β) (z : β) (xs : List α) : β :=
  List.foldr f z xs

/-- mk_variable (parser.py:205-206): free vars {name}; the evaluator
looks the name up in the variable environment (variables[name]; a missing
name is Python's KeyError). -/
def mk_variable (name : String) : Compiled Term :=
  ([name],
   fun _ env c =>
     match alookup name env with
     | some v => .ok (v, c)
     | none => .error (.keyError name))

/-- mk_anon (parser.py:202-203): free vars {}; the evaluator creates a
brand-new Var on every evaluation (identity = current counter). -/
def mk_anon (name : String) : Compiled Term :=
  ([],
   fun _ _ c => .ok (Term.var c name, c + 1))

/-- mk_literal (parser.py:199-200): free vars {}; the evaluator returns
the scalar unchanged. -/
def mk_literal (value : Term) : Compiled Term :=
  ([], fun _ _ c => .ok (value, c))

/-- mk_compound (parser.py:194-197): free vars from collect; the
evaluator prepends the symbol to the evaluated sub-terms,
(symbol,) + ev_terms(program, args, variables). -/
def mk_compound (symbol : String) (terms : List (Compiled Term)) : Compiled Term :=
  let fvsev := collect terms
  (fvsev.1,
   fun args env c =>
     match fvsev.2 args env c with
     | .error e => .error e
     | .ok (vs, c1) => .ok (Term.tup (Term.str symbol :: vs), c1))

/-- nil (parser.py:175): the empty-list marker ('Nil',) with no free
variables. -/
def nil : Compiled Term :=
  ([], fun _ _ c => .ok (Term.tup [Term.str "Nil"], c))

/-- cons (parser.py:177-181): union of the two fv sets; the evaluator
builds ('Cons', first, rest), evaluating first before rest. -/
def cons (first rest : Compiled Term) : Compiled Term :=
  (unionFv first.1 rest.1,
   fun args env c =>
     match first.2 args env c with
     | .error e => .error e
     | .ok (f, c1) =>
         match rest.2 args env c1 with
         | .error e => .error e
         | .ok (r, c2) => .ok (Term.tup [Term.str "Cons", f, r], c2))

/-- mk_list (parser.py:172-173): foldr(cons, nil, terms). -/
def mk_list (terms : List (Compiled Term)) : Compiled Term :=
  foldr cons nil terms

/-- mk_call (parser.py:162-167): free vars from collect; the evaluator
returns the suspended goal
delay(lambda: program[symbol](*ev_terms(program, args, variables))).
The suspension carries the symbol and the deferred argument evaluation;
nothing is looked up or evaluated until the driver forces it, and the
counter is returned unchanged. -/
def mk_call (symbol : String) (terms : List (Compiled Term)) : Compiled Goal :=
  let fvsev := collect terms
  (fvsev.1,
   fun args env c =>
     .ok (Goal.call symbol (fun c' => fvsev.2 args env c'), c))

/-- mk_calls (parser.py:157-160): free vars from collect; the evaluator
folds the evaluated call goals with foldr(both, succeed, ...). -/
def mk_calls (pairs : List (Compiled Goal)) : Compiled Goal :=
  let fvsev := collect pairs
  (fvsev.1,
   fun args env c =>
     match fvsev.2 args env c with
     | .error e => .error e
     | .ok (gs, c1) => .ok (foldr Goal.both Goal.succeed gs, c1))

/-- mk_predicate (parser.py:153-155): the head's symbol plus the
collected (fvs, ev) of its argument terms. -/
def mk_predicate (symbol : String) (terms : List (Compiled Term)) :
    String × Compiled (List Term) :=
  (symbol, collect terms)

/-- mk_rule (parser.py:140-148): the symbol, the union of head and body
free vars, and an evaluator building
both(eq(args, head_ev(program, args, variables)),
     ev_calls(program, args, variables)),
with the head's argument terms evaluated before the body (Python
evaluates the arguments of both left to right). -/
def mk_rule (predicate : String × Compiled (List Term)) (calls : Compiled Goal) :
    String × Compiled Goal :=
  let symbol := predicate.1
  let head_fvs := predicate.2.1
  let head_ev := predicate.2.2
  let call_fvs := calls.1
  let ev_calls := calls.2
  (symbol,
   (unionFv head_fvs call_fvs,
    fun args env c =>
      match head_ev args env c with
      | .error e => .error e
      | .ok (headvs, c1) =>
          match ev_calls args env c1 with
          | .error e => .error e
          | .ok (bodyg, c2) =>
              .ok (Goal.both (Goal.eq (Term.tup args) (Term.tup headvs)) bodyg, c2)))

/-- mk_fact (parser.py:150-151): literally mk_rule(predicate, mk_calls()). -/
def mk_fact (predicate : String × Compiled (List Term)) : String × Compiled Goal :=
  mk_rule predicate (mk_calls [])

/-- Allocates a fresh Var for every name, in order:
{name: Var(name) for name in fvs}, and the fv_map of ask. -/
def freshEnv (fvs : List String) (c : Nat) : VarEnv × Nat :=
  match fvs with
  | [] => ([], c)
  | nm :: rest =>
      ((nm, Term.var c nm) :: (freshEnv rest (c + 1)).1, (freshEnv rest (c + 1)).2)

/-- make_function (parser.py:120-125): one relation for a symbol's
clauses; per invocation it builds a single fresh variable environment
from the union of all the clauses' free variables, evaluates every
clause's ev with that same environment, and folds the resulting goals
with foldr(either, fail, ...).  The symbol argument only names the
function in the source (fn.__name__). -/
def make_function (symbol : String) (pairs : List (Compiled Goal)) : Fn :=
  fun args c =>
    let fvsev := collect pairs
    let varenv := (freshEnv fvsev.1 c).1
    match fvsev.2 args varenv (freshEnv fvsev.1 c).2 with
    | .error e => .error e
    | .ok (gs, c2) => .ok (foldr Goal.either Goal.fail gs, c2)

/-- The predicate symbols of a rule sequence in first-seen order (the
keys the defaultdict of collect_rules accumulates; Python 2 leaves the
dict iteration order unspecified, so any fixed order is a faithful
model). -/
def symbolsOf : List (String × Compiled Goal) → List String
  | [] => []
  | (s, _) :: rest => s :: (symbolsOf rest).filter (fun x => decide (¬ x = s))

/-- The clauses recorded for one symbol, in declaration order
(rules[symbol].append((fvs, ev))). -/
def clausesFor (sym : String) (rs : List (String × Compiled Goal)) :
    List (Compiled Goal) :=
  (rs.filter (fun r => decide (r.1 = sym))).map Prod.snd

/-- collect_rules (parser.py:114-129): gather the clauses of each symbol
in declaration order and bind the symbol to make_function over them. -/
def collect_rules (rules_seq : List (String × Compiled Goal)) : Program :=
  (symbolsOf rules_seq).map
    (fun sym => (sym, make_function sym (clausesFor sym rules_seq)))

/-- Modelled from the spec: the state of the engine's lazy solution
stream, as produced by run(goal, initial-state).  nil and cons are an
exhausted and a partially forced stream; srun is a goal applied to a
binding state and not yet forced; app explores two alternatives in
sequence (disjunction — the spec leaves the interleaving policy to the
engine, so the model explores the first alternative's stream first); and
sbind feeds every solution of a stream to a further goal (conjunction),
passing the suspension sentinels (the none elements) through. -/
inductive SStream where
  | nil
  | cons (x : Option State) (rest : SStream)
  | srun (g : Goal) (st : State)
  | app (s1 s2 : SStream)
  | sbind (s : SStream) (g : Goal)

/-- Modelled from the spec: one demand step of the search driver — ask
the stream for its next element, returning the element (a binding state,
or the none sentinel a forced suspension emits) together with the rest of
the stream, or none when the stream is exhausted.  Forcing a suspended
call looks the symbol up in the database (KeyError when absent, the
Undefined-Relation error), evaluates the delayed argument terms, invokes
the relation, and emits a sentinel in front of the relation's stream.
The fuel bounds the driver's work; running out is an error, never a
result. -/
def pull (prog : Program) : Nat → SStream → Nat → Except Err (Option ((Option State) × SStream) × Nat)
  | 0, _, _ => .error .outOfFuel
  | _ + 1, .nil, c => .ok (none, c)
  | _ + 1, .cons x rest, c => .ok (some (x, rest), c)
  | fuel + 1, .srun g st, c =>
      match g with
      | .fail => .ok (none, c)
      | .succeed => .ok (some (some st, .nil), c)
      | .eq a b =>
          match unify (fuel + 1) a b st with
          | .error e => .error e
          | .ok (some st') => .ok (some (some st', .nil), c)
          | .ok none => .ok (none, c)
      | .both g1 g2 => pull prog fuel (.sbind (.srun g1 st) g2) c
      | .either g1 g2 => pull prog fuel (.app (.srun g1 st) (.srun g2 st)) c
      | .call sym argsThunk =>
          match alookup sym prog with
          | none => .error (.keyError sym)
          | some fn =>
              match argsThunk c with
              | .error e => .error e
              | .ok (vs, c1) =>
                  match fn vs c1 with
                  | .error e => .error e
                  | .ok (g', c2) => .ok (some (none, .srun g' st), c2)
  | fuel + 1, .app s1 s2, c =>
      match pull prog fuel s1 c with
      | .error e => .error e
      | .ok (none, c1) => pull prog fuel s2 c1
      | .ok (some (x, r), c1) => .ok (some (x, .app r s2), c1)
  | fuel + 1, .sbind s g, c =>
      match pull prog fuel s c with
      | .error e => .error e
      | .ok (none, c1) => .ok (none, c1)
      | .ok (some (none, r), c1) => .ok (some (none, .sbind r g), c1)
      | .ok (some (some st, r), c1) => pull prog fuel (.app (.srun g st) (.sbind r g)) c1

/-- Modelled from the spec: the consumer loop of ask — repeatedly demand
the next element, drop the suspension sentinels ("opt_s for opt_s in
goal(empty_s) if opt_s is not None"), and collect the binding states; the
optional limit models islice(ss, 0, n): once n states have been
collected the loop stops without demanding anything further from the
stream. -/
def drive (prog : Program) : Nat → Option Nat → SStream → Nat → Except Err (List State × Nat)
  | _, some 0, _, c => .ok ([], c)
  | 0, none, _, _ => .error .outOfFuel
  | 0, some (_ + 1), _, _ => .error .outOfFuel
  | fuel + 1, none, s, c =>
      match pull prog (fuel + 1) s c with
      | .error e => .error e
      | .ok (none, c1) => .ok ([], c1)
      | .ok (some (none, rest), c1) => drive prog fuel none rest c1
      | .ok (some (some st, rest), c1) =>
          match drive prog fuel none rest c1 with
          | .error e => .error e
          | .ok (l, c2) => .ok (st :: l, c2)
  | fuel + 1, some (n + 1), s, c =>
      match pull prog (fuel + 1) s c with
      | .error e => .error e
      | .ok (none, c1) => .ok ([], c1)
      | .ok (some (none, rest), c1) => drive prog fuel (some (n + 1)) rest c1
      | .ok (some (some st, rest), c1) =>
          match drive prog fuel (some n) rest c1 with
          | .error e => .error e
          | .ok (l, c2) => .ok (st :: l, c2)

/-- Effectful map over a list in the Except monad, stopping at the first
error (the behaviour of a Python loop of dict comprehensions raising). -/
def mapExcept {α β : Type} (f : α → Except Err β) : List α → Except Err (List β)
  | [] => .ok []
  | a :: as =>
      match f a with
      | .error e => .error e
      | .ok b =>
          match mapExcept f as with
          | .error e => .error e
          | .ok bs => .ok (b :: bs)

/-- Program.ask (parser.py:93-108), for an already parsed query (the
parsing collaborator is external to the core): resolve the names to
report (the caller's list, else the query's free variables), build the
fresh fv_map over the query's free variables, evaluate the query with no
call arguments to obtain its goal, run the goal from the empty state
dropping sentinels and honouring the limit, and for each surviving state
look every requested name up in fv_map (Python raises KeyError for a
name absent there) and reify its variable.  Reification is engine code,
modelled from the spec only through its interface, so it is passed in as
the reifyF argument. -/
def Program.ask (prog : Program) (reifyF : Term → State → Term)
    (q : Compiled Goal) (vars : Option (List String)) (n : Option Nat)
    (fuel : Nat) : Except Err (List (List (String × Term))) :=
  let names := vars.getD q.1
  let fv_map := (freshEnv q.1 0).1
  match q.2 [] fv_map (freshEnv q.1 0).2 with
  | .error e => .error e
  | .ok (goal, c1) =>
      match drive prog fuel n (.srun goal emptyS) c1 with
      | .error e => .error e
      | .ok (states, _) =>
          mapExcept (fun st =>
            mapExcept (fun name =>
              match alookup name fv_map with
              | some v => .ok (name, reifyF v st)
              | none => .error (.keyError name)) names) states

/-- is_proper_list (parser.py:183-186): follow term[2] while the value is
a tuple whose first component is 'Cons', then compare with ('Nil',).
Python's term[0] on an empty tuple and term[2] on a tuple shorter than
three raise IndexError; note that nothing checks the tuple's length
beyond index 2, so longer 'Cons' tuples are followed as well. -/
def is_proper_list : Term → Except Err Bool
  | .tup [] => .error .indexError
  | .tup (x :: rest) =>
      if x = Term.str "Cons" then
        match rest with
        | _ :: t2 :: _ => is_proper_list t2
        | _ => .error .indexError
      else .ok (decide (Term.tup (x :: rest) = Term.tup [Term.str "Nil"]))
  | .str _ => .ok false
  | .int _ => .ok false
  | .var _ _ => .ok false

/-- list_elements (parser.py:188-192): yield the heads of the 'Cons'
chain until ('Nil',); the assert demands each link be a tuple of length
exactly three headed by 'Cons' (AssertionError otherwise).  Python's
term[0] on non-tuples raises TypeError for ints and Vars and IndexError
for the empty string, and s[0] of a non-empty string is its first
character, never equal to 'Nil', so the assert fires. -/
def list_elements : Term → Except Err (List Term)
  | .tup (.str "Nil" :: _) => .ok []
  | .tup [.str "Cons", h, t] => do
      let es ← list_elements t
      .ok (h :: es)
  | .tup [] => .error .indexError
  | .tup _ => .error .assertionError
  | .str s => if s = "" then .error .indexError else .error .assertionError
  | .int _ => .error .typeError
  | .var _ _ => .error .typeError

/-- Every element yielded by list_elements is a structural subterm of the
chain, which lets unparse recurse on the extracted elements. -/
theorem list_elements_sizeOf (t : Term) : ∀ (es : List Term),
    list_elements t = .ok es → ∀ e ∈ es, sizeOf e < sizeOf t := by
  induction t using list_elements.induct with
  | case1 rest =>
      intro es h e he
      rw [list_elements.eq_1] at h
      cases h
      cases he
  | case2 hd tl ih =>
      intro es h e he
      rw [list_elements.eq_2] at h
      cases hes : list_elements tl with
      | error err => rw [hes] at h; cases h
      | ok es' =>
          rw [hes] at h
          injection h with h
          subst h
          cases he with
          | head => simp; omega
          | tail _ hmem =>
              have := ih es' hes e hmem
              simp
              omega
  | case3 =>
      intro es h e _
      rw [list_elements.eq_3] at h
      cases h
  | case4 elems h1 h2 h3 =>
      intro es h e hmem
      rw [list_elements.eq_4 elems h1 h2 h3] at h
      cases h
  | case5 =>
      intro es h e _
      rw [list_elements.eq_5] at h
      simp at h
  | case6 s hne =>
      intro es h e _
      rw [list_elements.eq_5] at h
      simp [hne] at h
  | case7 n =>
      intro es h e _
      rw [list_elements.eq_6] at h
      cases h
  | case8 i nm =>
      intro es h e _
      rw [list_elements.eq_7] at h
      cases h

/-- Python's str() on the scalar values unparse can meet outside tuples:
decimal rendering for ints, the string itself for strings; the display of
an engine Var object is engine code, modelled as its name hint (no claim
depends on it — reification replaces variables before printing). -/
def pyStr : Term → String
  | .int n => toString n
  | .str s => s
  | .var _ hint => hint
  | .tup _ => ""

/-- unparse (parser.py:215-224): non-tuples print via str(); a tuple that
is_proper_list accepts prints as the bracketed comma-join of its
unparsed elements (errors from is_proper_list and list_elements
propagate); a 1-tuple returns its bare head (the source returns the
Python object itself — well-typed only when it is a string symbol, which
is the only case the compiler produces; other heads are modelled as a
type error); longer tuples print as the parenthesised head followed by
one space-prefixed rendered argument each. -/
def unparse : Term → Except Err String
  | .tup l =>
      match is_proper_list (.tup l) with
      | .error e => .error e
      | .ok true =>
          match h : list_elements (.tup l) with
          | .error e => .error e
          | .ok es =>
              match mapExcept (fun e => unparse e.1) es.attach with
              | .error e => .error e
              | .ok ss => .ok ("[" ++ String.intercalate ", " ss ++ "]")
      | .ok false =>
          match l with
          | [] => .error .indexError
          | [x] =>
              match x with
              | .str s => .ok s
              | _ => .error .typeError
          | x :: rest =>
              match mapExcept (fun e => unparse e.1) rest.attach with
              | .error e => .error e
              | .ok ss => .ok ("(" ++ pyStr x ++ String.join (ss.map (fun a => " " ++ a)) ++ ")")
  | .str s => .ok (pyStr (.str s))
  | .int n => .ok (pyStr (.int n))
  | .var i nm => .ok (pyStr (.var i nm))
termination_by t => sizeOf t
decreasing_by
  · exact list_elements_sizeOf _ _ h e.1 e.2
  · have := List.sizeOf_lt_of_mem e.2
    simp
    omega

/-- The call-time application program[symbol](*args) of the delayed thunk
(parser.py:165): look the symbol up in the database (KeyError when
absent) and invoke the relation. -/
def applyFn (prog : Program) (sym : String) (args : List Term) (c : Nat) :
    Except Err (Goal × Nat) :=
  match alookup sym prog with
  | some fn => fn args c
  | none => .error (.keyError sym)

/-- The right-nested runtime encoding of a list with the given element
values, ('Cons', v1, ('Cons', ..., ('Nil',))), written from the spec's
words to compare against what mk_list's evaluator builds. -/
def consChain (vs : List Term) : Term :=
  vs.foldr (fun v acc => Term.tup [Term.str "Cons", v, acc]) (Term.tup [Term.str "Nil"])

/-- The characterization C9 asserts for is_proper_list, written from the
claim's words: a right-nested chain of exactly-3-element 'Cons' tuples
terminating in ('Nil',). -/
def specChain : Term → Bool
  | .tup [.str "Cons", _, t] => specChain t
  | .tup [.str "Nil"] => true
  | _ => false

/-- The characterization is_proper_list actually decides: follow the
third component of any tuple whose head is 'Cons' and has at least three
components (regardless of arity), and require the walk to end at
('Nil',); a 'Cons'-headed tuple shorter than three components makes
is_proper_list raise, so it never returns true there. -/
def wideChain : Term → Bool
  | .tup [] => false
  | .tup (.str s :: rest) =>
      if s = "Cons" then
        match rest with
        | _ :: t :: _ => wideChain t
        | _ => false
      else decide (s = "Nil" ∧ rest = [])
  | .tup (.tup _ :: _) => false
  | .tup (.int _ :: _) => false
  | .tup (.var _ _ :: _) => false
  | .str _ => false
  | .int _ => false
  | .var _ _ => false

/-- The list of disjuncts of a goal of the shape foldr either fail gs,
used to inspect the clause alternatives a relation tries. -/
def disjuncts : Goal → List Goal
  | .either g rest => g :: disjuncts rest
  | _ => []

/-- The head-unification pattern of a clause goal both(eq(args, head), body). -/
def clauseHead : Goal → Option Term
  | .both (.eq _ h) _ => some h
  | _ => none

/-- The clause evaluation make_function performs per invocation, written
from the claim's words to compare against make_function itself: build one
fresh environment from the union of all clauses' free variables, then run
every clause's evaluator with that same environment, in declaration
order. -/
def clauseGoals (pairs : List (Compiled Goal)) (args : List Term) (c : Nat) :
    Except Err (List Goal × Nat) :=
  evalEvs (pairs.map Prod.snd) args
    (freshEnv (unionAll (pairs.map Prod.fst)) c).1
    (freshEnv (unionAll (pairs.map Prod.fst)) c).2

/-- Chained complete runs: each goal of the list, applied to the shared
incoming binding state, runs to completion producing its solution list,
the allocation counter threading from one run into the next; the combined
solutions are the concatenation in order. -/
inductive RunsAll (prog : Program) (st : State) : List Goal → Nat → List State → Nat → Prop
  | nil (c : Nat) : RunsAll prog st [] c [] c
  | cons (g : Goal) (gs : List Goal) (c : Nat) (L : List State) (c1 : Nat)
      (Ls : List State) (c2 : Nat) (fuel : Nat)
      (hg : drive prog fuel none (.srun g st) c = .ok (L, c1))
      (hgs : RunsAll prog st gs c1 Ls c2) :
      RunsAll prog st (g :: gs) c (L ++ Ls) c2

/-- A dummy reification function for concrete test programs (reification
itself is engine code outside src/, and no claim depends on its output
values). -/
def reifyId : Term → State → Term := fun t _ => t

/-- The two-clause test predicate of C1: the program for
"P(x).  P(x)." — two facts for the same symbol, both mentioning the same
variable name x. -/
def c1prog : Program :=
  collect_rules
    [ mk_fact (mk_predicate "P" [mk_variable "x"]),
      mk_fact (mk_predicate "P" [mk_variable "x"]) ]

/-- The test program of C3: the single fact "P(A).". -/
def c3prog : Program :=
  collect_rules [mk_fact (mk_predicate "P" [mk_compound "A" []])]

/-- The C3 query "P (B), Undef x": its first call fails to unify, its
second call names a symbol absent from c3prog. -/
def c3deadQuery : Compiled Goal :=
  mk_calls [mk_call "P" [mk_compound "B" []], mk_call "Undef" [mk_variable "x"]]

/-- The C3 no-solution query "P (B)". -/
def c3emptyQuery : Compiled Goal :=
  mk_calls [mk_call "P" [mk_compound "B" []]]

/-- The member relation of the source's doctests:
"Member x (Cons x _).  Member x (Cons _ r) <- Member x r." — a predicate
with an infinite solution space when called with an unbound list. -/
def memberRules : List (String × Compiled Goal) :=
  [ mk_fact (mk_predicate "Member"
      [mk_variable "x", mk_compound "Cons" [mk_variable "x", mk_anon "_"]]),
    mk_rule (mk_predicate "Member"
      [mk_variable "x", mk_compound "Cons" [mk_anon "_", mk_variable "r"]])
      (mk_calls [mk_call "Member" [mk_variable "x", mk_variable "r"]]) ]

/-- The program built from the member rules. -/
def memberProg : Program := collect_rules memberRules

/-- The open query "Member x a" over an unbound list variable: infinitely
many solutions. -/
def memberOpenQuery : Compiled Goal :=
  mk_calls [mk_call "Member" [mk_variable "x", mk_variable "a"]]

/-- The ground query "Member x [5, 7]": exactly the two solutions of the
doctest. -/
def memberGroundQuery : Compiled Goal :=
  mk_calls [mk_call "Member"
    [mk_variable "x", mk_list [mk_literal (.int 5), mk_literal (.int 7)]]]

/-- Head-unfolding equation for pull on an exhausted stream. -/
theorem pull_nil (prog : Program) (f c : Nat) :
    pull prog (f + 1) .nil c = .ok (none, c) := rfl

/-- Head-unfolding equation for pull on a forced cons cell. -/
theorem pull_cons (prog : Program) (f : Nat) (x : Option State) (rest : SStream) (c : Nat) :
    pull prog (f + 1) (.cons x rest) c = .ok (some (x, rest), c) := rfl

/-- Head-unfolding equation for pull on the fail goal. -/
theorem pull_fail (prog : Program) (f : Nat) (st : State) (c : Nat) :
    pull prog (f + 1) (.srun .fail st) c = .ok (none, c) := rfl

/-- Head-unfolding equation for pull on the succeed goal. -/
theorem pull_succeed (prog : Program) (f : Nat) (st : State) (c : Nat) :
    pull prog (f + 1) (.srun .succeed st) c = .ok (some (some st, .nil), c) := rfl

/-- Head-unfolding equation for pull on a unification goal. -/
theorem pull_eq (prog : Program) (f : Nat) (a b : Term) (st : State) (c : Nat) :
    pull prog (f + 1) (.srun (.eq a b) st) c =
      match unify (f + 1) a b st with
      | .error e => .error e
      | .ok (some st') => .ok (some (some st', .nil), c)
      | .ok none => .ok (none, c) := rfl

/-- Head-unfolding equation for pull on a conjunction goal. -/
theorem pull_both (prog : Program) (f : Nat) (g1 g2 : Goal) (st : State) (c : Nat) :
    pull prog (f + 1) (.srun (.both g1 g2) st) c =
      pull prog f (.sbind (.srun g1 st) g2) c := rfl

/-- Head-unfolding equation for pull on a disjunction goal. -/
theorem pull_either (prog : Program) (f : Nat) (g1 g2 : Goal) (st : State) (c : Nat) :
    pull prog (f + 1) (.srun (.either g1 g2) st) c =
      pull prog f (.app (.srun g1 st) (.srun g2 st)) c := rfl

/-- Head-unfolding equation for pull on a suspended call: only here is
the database consulted and the delayed argument evaluation run, and the
forced suspension emits its none sentinel in front of the relation's
stream. -/
theorem pull_call (prog : Program) (f : Nat) (sym : String)
    (th : Nat → Except Err (List Term × Nat)) (st : State) (c : Nat) :
    pull prog (f + 1) (.srun (.call sym th) st) c =
      match alookup sym prog with
      | none => .error (.keyError sym)
      | some fn =>
          match th c with
          | .error e => .error e
          | .ok (vs, c1) =>
              match fn vs c1 with
              | .error e => .error e
              | .ok (g', c2) => .ok (some (none, .srun g' st), c2) := rfl

/-- Head-unfolding equation for pull on sequential alternatives. -/
theorem pull_app (prog : Program) (f : Nat) (s1 s2 : SStream) (c : Nat) :
    pull prog (f + 1) (.app s1 s2) c =
      match pull prog f s1 c with
      | .error e => .error e
      | .ok (none, c1) => pull prog f s2 c1
      | .ok (some (x, r), c1) => .ok (some (x, .app r s2), c1) := rfl

/-- Head-unfolding equation for pull on a conjunction stream. -/
theorem pull_sbind (prog : Program) (f : Nat) (s : SStream) (g : Goal) (c : Nat) :
    pull prog (f + 1) (.sbind s g) c =
      match pull prog f s c with
      | .error e => .error e
      | .ok (none, c1) => .ok (none, c1)
      | .ok (some (none, r), c1) => .ok (some (none, .sbind r g), c1)
      | .ok (some (some st, r), c1) => pull prog f (.app (.srun g st) (.sbind r g)) c1 := rfl

/-- drive with an exhausted limit stops at once without pulling. -/
theorem drive_lim0 (prog : Program) (fuel : Nat) (s : SStream) (c : Nat) :
    drive prog fuel (some 0) s c = .ok ([], c) := by
  cases fuel <;> rfl

/-- Head-unfolding equation for an unlimited drive step. -/
theorem drive_succ_none (prog : Program) (f : Nat) (s : SStream) (c : Nat) :
    drive prog (f + 1) none s c =
      match pull prog (f + 1) s c with
      | .error e => .error e
      | .ok (none, c1) => .ok ([], c1)
      | .ok (some (none, rest), c1) => drive prog f none rest c1
      | .ok (some (some st, rest), c1) =>
          match drive prog f none rest c1 with
          | .error e => .error e
          | .ok (l, c2) => .ok (st :: l, c2) := rfl

/-- Head-unfolding equation for a limited drive step with demand left. -/
theorem drive_succ_some (prog : Program) (f n : Nat) (s : SStream) (c : Nat) :
    drive prog (f + 1) (some (n + 1)) s c =
      match pull prog (f + 1) s c with
      | .error e => .error e
      | .ok (none, c1) => .ok ([], c1)
      | .ok (some (none, rest), c1) => drive prog f (some (n + 1)) rest c1
      | .ok (some (some st, rest), c1) =>
          match drive prog f (some n) rest c1 with
          | .error e => .error e
          | .ok (l, c2) => .ok (st :: l, c2) := rfl

/-- Successes of the component-list unifier transfer along any pointwise
strengthening of the element unifier. -/
theorem unifyList_mono (uf uf' : Term → Term → State → Except Err (Option State))
    (h : ∀ e f s r, uf e f s = .ok r → uf' e f s = .ok r) :
    ∀ es fs s r, unifyList uf es fs s = .ok r → unifyList uf' es fs s = .ok r := by
  intro es
  induction es with
  | nil =>
      intro fs s r h0
      cases fs <;> simpa [unifyList] using h0
  | cons e es' ih =>
      intro fs s r h0
      cases fs with
      | nil => simpa [unifyList] using h0
      | cons f fs' =>
          simp only [unifyList] at h0 ⊢
          cases hu : uf e f s with
          | error err => rw [hu] at h0; cases h0
          | ok o =>
              rw [hu] at h0
              rw [h e f s o hu]
              cases o with
              | none => exact h0
              | some s' => exact ih fs' s' r h0

/-- Successful unification results do not change when the fuel grows:
running out of fuel is an error, never a result. -/
theorem unify_stable_all (fuel : Nat) :
    ∀ u v s r, unify fuel u v s = .ok r → unify (fuel + 1) u v s = .ok r := by
  induction fuel with
  | zero =>
      intro u v s r h
      simp [unify] at h
  | succ f ih =>
      intro u v s r h
      cases hwu : walk s u <;> cases hwv : walk s v <;>
        simp only [unify, hwu, hwv] at h ⊢ <;>
        first
          | exact h
          | exact unifyList_mono (unify f) (unify (f + 1)) ih _ _ s r h

/-- unify stability, single-step form. -/
theorem unify_stable {fuel : Nat} {u v : Term} {s : State} {r : Option State}
    (h : unify fuel u v s = .ok r) : unify (fuel + 1) u v s = .ok r :=
  unify_stable_all fuel u v s r h

/-- Successful pulls do not change when the fuel grows. -/
theorem pull_stable (prog : Program) : ∀ (fuel : Nat) (s : SStream) (c : Nat) r,
    pull prog fuel s c = .ok r → pull prog (fuel + 1) s c = .ok r := by
  intro fuel
  induction fuel with
  | zero => intro s c r h; simp [pull] at h
  | succ f ih =>
      intro s c r h
      cases s with
      | nil => simpa [pull] using h
      | cons x rest => simpa [pull] using h
      | srun g st =>
          cases g with
          | fail => simpa [pull] using h
          | succeed => simpa [pull] using h
          | eq a b =>
              simp only [pull] at h ⊢
              cases hu : unify (f + 1) a b st with
              | error e => rw [hu] at h; cases h
              | ok o =>
                  rw [hu] at h
                  rw [unify_stable hu]
                  exact h
          | both g1 g2 =>
              simp only [pull] at h ⊢
              exact ih _ _ _ h
          | either g1 g2 =>
              simp only [pull] at h ⊢
              exact ih _ _ _ h
          | call sym th =>
              simp only [pull] at h ⊢
              exact h
      | app s1 s2 =>
          simp only [pull] at h ⊢
          cases hp : pull prog f s1 c with
          | error e => rw [hp] at h; cases h
          | ok pr =>
              rw [hp] at h
              rw [ih _ _ _ hp]
              obtain ⟨o, c1⟩ := pr
              cases o with
              | none => exact ih _ _ _ h
              | some pr2 => exact h
      | sbind s g =>
          simp only [pull] at h ⊢
          cases hp : pull prog f s c with
          | error e => rw [hp] at h; cases h
          | ok pr =>
              rw [hp] at h
              rw [ih _ _ _ hp]
              obtain ⟨o, c1⟩ := pr
              cases o with
              | none => exact h
              | some pr2 =>
                  obtain ⟨x, r'⟩ := pr2
                  cases x with
                  | none => exact h
                  | some st' => exact ih _ _ _ h

/-- Successful drives do not change when the fuel grows. -/
theorem drive_stable (prog : Program) : ∀ (fuel : Nat) (lim : Option Nat) (s : SStream) (c : Nat) r,
    drive prog fuel lim s c = .ok r → drive prog (fuel + 1) lim s c = .ok r := by
  intro fuel
  induction fuel with
  | zero =>
      intro lim s c r h
      match lim with
      | some 0 => rw [drive_lim0] at h ⊢; exact h
      | none => cases h
      | some (n + 1) => cases h
  | succ f ih =>
      intro lim s c r h
      match lim with
      | some 0 => rw [drive_lim0] at h ⊢; exact h
      | none =>
          rw [drive_succ_none] at h
          rw [drive_succ_none]
          split at h
          · cases h
          · rename_i c1 heq
            rw [pull_stable prog _ _ _ _ heq]
            exact h
          · rename_i rest c1 heq
            rw [pull_stable prog _ _ _ _ heq]
            exact ih _ _ _ _ h
          · rename_i st rest c1 heq
            rw [pull_stable prog _ _ _ _ heq]
            show (match drive prog (f + 1) none rest c1 with
                  | Except.error e => Except.error e
                  | Except.ok (l, c2) => Except.ok (st :: l, c2)) = Except.ok r
            split at h
            · cases h
            · rename_i l c2 heq2
              rw [ih _ _ _ _ heq2]
              exact h
      | some (n + 1) =>
          rw [drive_succ_some] at h
          rw [drive_succ_some]
          split at h
          · cases h
          · rename_i c1 heq
            rw [pull_stable prog _ _ _ _ heq]
            exact h
          · rename_i rest c1 heq
            rw [pull_stable prog _ _ _ _ heq]
            exact ih _ _ _ _ h
          · rename_i st rest c1 heq
            rw [pull_stable prog _ _ _ _ heq]
            show (match drive prog (f + 1) (some n) rest c1 with
                  | Except.error e => Except.error e
                  | Except.ok (l, c2) => Except.ok (st :: l, c2)) = Except.ok r
            split at h
            · cases h
            · rename_i l c2 heq2
              rw [ih _ _ _ _ heq2]
              exact h

/-- drive stability for any larger fuel. -/
theorem drive_stable_ge (prog : Program) {fuel fuel' : Nat} (hle : fuel ≤ fuel')
    {lim : Option Nat} {s : SStream} {c : Nat} {r : List State × Nat}
    (h : drive prog fuel lim s c = .ok r) : drive prog fuel' lim s c = .ok r := by
  induction fuel' with
  | zero =>
      have : fuel = 0 := Nat.le_zero.mp hle
      subst this
      exact h
  | succ f ih =>
      rcases Nat.lt_or_ge fuel (f + 1) with hlt | hge
      · exact drive_stable prog f lim s c r (ih (Nat.lt_succ_iff.mp hlt))
      · have : fuel = f + 1 := Nat.le_antisymm hle hge
        subst this
        exact h

/-- pull stability for any larger fuel. -/
theorem pull_stable_ge (prog : Program) {fuel fuel' : Nat} (hle : fuel ≤ fuel')
    {s : SStream} {c : Nat} {r : Option ((Option State) × SStream) × Nat}
    (h : pull prog fuel s c = .ok r) : pull prog fuel' s c = .ok r := by
  induction fuel' with
  | zero =>
      have : fuel = 0 := Nat.le_zero.mp hle
      subst this
      exact h
  | succ f ih =>
      rcases Nat.lt_or_ge fuel (f + 1) with hlt | hge
      · exact pull_stable prog f s c _ (ih (Nat.lt_succ_iff.mp hlt))
      · have : fuel = f + 1 := Nat.le_antisymm hle hge
        subst this
        exact h

/-- An empty stream yields no solutions. -/
theorem drive_nil (prog : Program) (f c : Nat) :
    drive prog (f + 1) none .nil c = .ok ([], c) := by
  rw [drive_succ_none, pull_nil]

/-- The identity-failure goal never succeeds: running it yields the empty
solution list and touches nothing. -/
theorem drive_run_fail (prog : Program) (f : Nat) (st : State) (c : Nat) :
    drive prog (f + 2) none (.srun .fail st) c = .ok ([], c) := by
  rw [drive_succ_none, pull_fail]

/-- The identity-success goal succeeds exactly once, with the incoming
binding state untouched. -/
theorem drive_run_succeed (prog : Program) (f : Nat) (st : State) (c : Nat) :
    drive prog (f + 2) none (.srun .succeed st) c = .ok ([st], c) := by
  rw [drive_succ_none, pull_succeed]
  show (match drive prog (f + 1) none SStream.nil c with
        | Except.error e => Except.error e
        | Except.ok (l, c2) => Except.ok (st :: l, c2)) = Except.ok ([st], c)
  rw [drive_nil]

/-- If the head of stream sA always unfolds in one pull step to stream
sB, complete runs of sB are complete runs of sA at one more fuel. -/
theorem drive_head (prog : Program) (sA sB : SStream)
    (hstep : ∀ f c, pull prog (f + 1) sA c = pull prog f sB c) :
    ∀ (f : Nat) (L : List State) (c c' : Nat),
      drive prog f none sB c = .ok (L, c') → drive prog (f + 1) none sA c = .ok (L, c') := by
  intro f L c c' h
  cases f with
  | zero => cases h
  | succ g =>
      rw [drive_succ_none] at h
      rw [drive_succ_none]
      rw [hstep (g + 1) c]
      split at h
      · cases h
      · exact h
      · exact drive_stable prog g _ _ _ _ h
      · split at h
        · cases h
        · rename_i l c2 heq2
          rw [drive_stable prog g _ _ _ _ heq2]
          exact h

/-- Once the first alternative's stream is exhausted, running the
sequential composition continues as the second alternative's run. -/
theorem drive_app_exhausted (prog : Program) (f1 : Nat) (s1 : SStream) (c c1 : Nat)
    (hp : pull prog f1 s1 c = .ok (none, c1)) :
    ∀ (f2 : Nat) (s2 : SStream) (L2 : List State) (c2 : Nat),
      drive prog f2 none s2 c1 = .ok (L2, c2) →
      drive prog (f1 + f2 + 1) none (.app s1 s2) c = .ok (L2, c2) := by
  intro f2 s2 L2 c2 h2
  cases f2 with
  | zero => cases h2
  | succ g =>
      rw [drive_succ_none]
      rw [pull_app]
      rw [pull_stable_ge prog (show f1 ≤ f1 + (g + 1) by omega) hp]
      show (match pull prog (f1 + (g + 1)) s2 c1 with
            | Except.error e => Except.error e
            | Except.ok (none, cb) => Except.ok ([], cb)
            | Except.ok (some (none, rest), cb) => drive prog (f1 + (g + 1)) none rest cb
            | Except.ok (some (some st, rest), cb) =>
                match drive prog (f1 + (g + 1)) none rest cb with
                | Except.error e => Except.error e
                | Except.ok (l, cc) => Except.ok (st :: l, cc)) = Except.ok (L2, c2)
      rw [drive_succ_none] at h2
      split at h2
      · cases h2
      · rename_i cb heq
        rw [pull_stable_ge prog (show g + 1 ≤ f1 + (g + 1) by omega) heq]
        exact h2
      · rename_i rest cb heq
        rw [pull_stable_ge prog (show g + 1 ≤ f1 + (g + 1) by omega) heq]
        exact drive_stable_ge prog (show g ≤ f1 + (g + 1) by omega) h2
      · rename_i st rest cb heq
        rw [pull_stable_ge prog (show g + 1 ≤ f1 + (g + 1) by omega) heq]
        show (match drive prog (f1 + (g + 1)) none rest cb with
              | Except.error e => Except.error e
              | Except.ok (l, cc) => Except.ok (st :: l, cc)) = Except.ok (L2, c2)
        split at h2
        · cases h2
        · rename_i l cc heq2
          rw [drive_stable_ge prog (show g ≤ f1 + (g + 1) by omega) heq2]
          exact h2

/-- Sequential exploration of two alternatives: if each stream runs to
completion, the composition runs to completion with the concatenated
solutions, the first alternative's in front. -/
theorem drive_app (prog : Program) :
    ∀ (f1 : Nat) (s1 : SStream) (c : Nat) (L1 : List State) (c1 : Nat),
      drive prog f1 none s1 c = .ok (L1, c1) →
      ∀ (f2 : Nat) (s2 : SStream) (L2 : List State) (c2 : Nat),
        drive prog f2 none s2 c1 = .ok (L2, c2) →
        ∃ F, drive prog F none (.app s1 s2) c = .ok (L1 ++ L2, c2) := by
  intro f1
  induction f1 with
  | zero => intro s1 c L1 c1 h1; cases h1
  | succ g ih =>
      intro s1 c L1 c1 h1 f2 s2 L2 c2 h2
      rw [drive_succ_none] at h1
      split at h1
      · cases h1
      · rename_i cx heq
        cases h1
        exact ⟨(g + 1) + f2 + 1, drive_app_exhausted prog (g + 1) s1 c _ heq f2 s2 L2 c2 h2⟩
      · rename_i rest cx heq
        obtain ⟨F', hF⟩ := ih rest cx L1 c1 h1 f2 s2 L2 c2 h2
        refine ⟨max (g + 1) F' + 1, ?_⟩
        rw [drive_succ_none]
        rw [pull_app]
        rw [pull_stable_ge prog (show g + 1 ≤ max (g + 1) F' by omega) heq]
        show drive prog (max (g + 1) F') none (.app rest s2) cx = Except.ok (L1 ++ L2, c2)
        exact drive_stable_ge prog (show F' ≤ max (g + 1) F' by omega) hF
      · rename_i st rest cx heq
        split at h1
        · cases h1
        · rename_i l cy heq2
          cases h1
          obtain ⟨F', hF⟩ := ih rest cx l _ heq2 f2 s2 L2 c2 h2
          refine ⟨max (g + 1) F' + 1, ?_⟩
          rw [drive_succ_none]
          rw [pull_app]
          rw [pull_stable_ge prog (show g + 1 ≤ max (g + 1) F' by omega) heq]
          show (match drive prog (max (g + 1) F') none (.app rest s2) cx with
                | Except.error e => Except.error e
                | Except.ok (l, cc) => Except.ok (st :: l, cc)) = Except.ok ((st :: l) ++ L2, c2)
          rw [drive_stable_ge prog (show F' ≤ max (g + 1) F' by omega) hF]
          rfl

/-- Disjunction explores both alternatives from the same incoming state:
complete runs of the two goals compose into a complete run of
either(g1, g2) whose solutions are the two solution lists concatenated in
order. -/
theorem drive_either (prog : Program) (g1 g2 : Goal) (st : State) :
    ∀ (f1 c : Nat) (L1 : List State) (c1 : Nat),
      drive prog f1 none (.srun g1 st) c = .ok (L1, c1) →
      ∀ (f2 : Nat) (L2 : List State) (c2 : Nat),
        drive prog f2 none (.srun g2 st) c1 = .ok (L2, c2) →
        ∃ F, drive prog F none (.srun (.either g1 g2) st) c = .ok (L1 ++ L2, c2) := by
  intro f1 c L1 c1 h1 f2 L2 c2 h2
  obtain ⟨F, hF⟩ := drive_app prog f1 (.srun g1 st) c L1 c1 h1 f2 (.srun g2 st) L2 c2 h2
  exact ⟨F + 1,
    drive_head prog (.srun (.either g1 g2) st) (.app (.srun g1 st) (.srun g2 st))
      (fun f c0 => pull_either prog f g1 g2 st c0) F (L1 ++ L2) c c2 hF⟩

/-- The right fold of disjunction with identity failure over a clause
goal list: chained complete runs of the clause goals compose into a
complete run of the folded goal, yielding exactly the concatenation of
the per-clause solutions in clause order. -/
theorem runsAll_fold (prog : Program) (st : State) :
    ∀ (gs : List Goal) (c : Nat) (L : List State) (c' : Nat),
      RunsAll prog st gs c L c' →
      ∃ F, drive prog F none (.srun (foldr Goal.either Goal.fail gs) st) c = .ok (L, c') := by
  intro gs c L c' h
  induction h with
  | nil c => exact ⟨2, drive_run_fail prog 0 st c⟩
  | cons g gs c L c1 Ls c2 fuel hg hgs ih =>
      obtain ⟨F2, h2⟩ := ih
      exact drive_either prog g (foldr Goal.either Goal.fail gs) st fuel c L c1 hg F2 Ls c2 h2

/-- A limited drive returns exactly the first-n prefix of the unlimited
drive's solutions, at the same fuel: the limit never changes which
solutions come first, and stopping at the limit never costs extra fuel. -/
theorem drive_prefix (prog : Program) :
    ∀ (fuel n : Nat) (s : SStream) (c : Nat) (L : List State) (c' : Nat),
      drive prog fuel none s c = .ok (L, c') →
      ∃ c'', drive prog fuel (some n) s c = .ok (L.take n, c'') := by
  intro fuel
  induction fuel with
  | zero => intro n s c L c' h; cases h
  | succ f ih =>
      intro n s c L c' h
      cases n with
      | zero => exact ⟨c, by rw [drive_lim0]; rfl⟩
      | succ m =>
          rw [drive_succ_none] at h
          rw [drive_succ_some]
          split at h
          · cases h
          · cases h
            exact ⟨_, rfl⟩
          · rename_i rest c1 heq
            exact ih (m + 1) rest c1 L c' h
          · rename_i st rest c1 heq
            split at h
            · cases h
            · rename_i l c2 heq2
              cases h
              obtain ⟨c'', hc⟩ := ih m rest c1 l _ heq2
              refine ⟨c'', ?_⟩
              show (match drive prog f (some m) rest c1 with
                    | Except.error e => Except.error e
                    | Except.ok (l, c2) => Except.ok (st :: l, c2)) =
                  Except.ok ((st :: l).take (m + 1), c'')
              rw [hc]
              rfl

/-- mapExcept commutes with take on successful runs. -/
theorem mapExcept_take {α β : Type} (f : α → Except Err β) :
    ∀ (l : List α) (R : List β), mapExcept f l = .ok R →
      ∀ n, mapExcept f (l.take n) = .ok (R.take n) := by
  intro l
  induction l with
  | nil =>
      intro R h n
      cases h
      simp [mapExcept]
  | cons a as ih =>
      intro R h n
      simp only [mapExcept] at h
      split at h
      · cases h
      · rename_i b heq
        split at h
        · cases h
        · rename_i bs heq2
          cases h
          cases n with
          | zero => simp [mapExcept]
          | succ m =>
              simp only [List.take]
              simp only [mapExcept]
              rw [heq, ih bs heq2 m]

/-- Membership in a free-variable union is membership in either side. -/
theorem mem_unionFv (x : String) (a b : List String) :
    x ∈ unionFv a b ↔ x ∈ a ∨ x ∈ b := by
  by_cases hxa : x ∈ a
  · simp [unionFv, hxa]
  · simp [unionFv, hxa]

/-- Membership in the union of a list of free-variable sets. -/
theorem mem_unionAll (x : String) (l : List (List String)) :
    x ∈ unionAll l ↔ ∃ a ∈ l, x ∈ a := by
  induction l with
  | nil => simp [unionAll]
  | cons a l ih =>
      simp only [unionAll, List.foldr_cons] at ih ⊢
      rw [mem_unionFv, ih]
      simp

/-- The free-variable set of a list literal is the union of the
elements' free-variable sets. -/
theorem mk_list_fvs (x : String) (ts : List (Compiled Term)) :
    x ∈ (mk_list ts).1 ↔ ∃ p ∈ ts, x ∈ p.1 := by
  induction ts with
  | nil =>
      constructor
      · intro h
        cases h
      · rintro ⟨p, hp, _⟩
        cases hp
  | cons p ts ih =>
      show x ∈ (cons p (mk_list ts)).1 ↔ _
      simp only [cons]
      rw [mem_unionFv, ih]
      simp

/-- The evaluator of a list literal: whenever the element evaluators run
left to right producing the values vs, the list literal evaluates to the
right-nested ('Cons', v1, ... ('Nil',)) chain over exactly those values,
with the same final counter. -/
theorem mk_list_ev (ts : List (Compiled Term)) (args : List Term) (env : VarEnv) :
    ∀ (c : Nat) (vs : List Term) (c' : Nat),
      evalEvs (ts.map Prod.snd) args env c = .ok (vs, c') →
      (mk_list ts).2 args env c = .ok (consChain vs, c') := by
  induction ts with
  | nil =>
      intro c vs c' h
      cases h
      rfl
  | cons p ts ih =>
      intro c vs c' h
      show (match p.2 args env c with
            | Except.error e => Except.error e
            | Except.ok (f, c1) =>
                match (mk_list ts).2 args env c1 with
                | Except.error e => Except.error e
                | Except.ok (r, c2) => Except.ok (Term.tup [Term.str "Cons", f, r], c2)) =
          Except.ok (consChain vs, c')
      simp only [List.map_cons, evalEvs] at h
      split at h
      · cases h
      · rename_i v c1 heq
        split at h
        · cases h
        · rename_i vs2 c2 heq2
          cases h
          rw [heq]
          show (match (mk_list ts).2 args env c1 with
                | Except.error e => Except.error e
                | Except.ok (r, c2) => Except.ok (Term.tup [Term.str "Cons", v, r], c2)) =
              Except.ok (consChain (v :: vs2), c')
          rw [ih c1 vs2 c' heq2]
          rfl

/-- A name outside the free-variable set is absent from the fresh
environment built over it (Python's dict lookup raises KeyError). -/
theorem freshEnv_alookup_none (name : String) :
    ∀ (fvs : List String) (c : Nat), name ∉ fvs →
      alookup name (freshEnv fvs c).1 = none := by
  intro fvs
  induction fvs with
  | nil => intro c _; rfl
  | cons nm rest ih =>
      intro c h
      have hne : ¬nm = name := fun hh => h (by simp [hh])
      show (if nm = name then some (Term.var c nm) else alookup name (freshEnv rest (c + 1)).1) = none
      rw [if_neg hne]
      exact ih (c + 1) (fun hh => h (by simp [hh]))

/-- A name inside the free-variable set is bound in the fresh
environment built over it. -/
theorem freshEnv_alookup_mem (name : String) :
    ∀ (fvs : List String) (c : Nat), name ∈ fvs →
      ∃ t, alookup name (freshEnv fvs c).1 = some t := by
  intro fvs
  induction fvs with
  | nil => intro c h; cases h
  | cons nm rest ih =>
      intro c h
      show ∃ t, (if nm = name then some (Term.var c nm) else alookup name (freshEnv rest (c + 1)).1) = some t
      by_cases he : nm = name
      · exact ⟨Term.var c nm, by rw [if_pos he]⟩
      · obtain ⟨t, ht⟩ := ih (c + 1) (by rcases List.mem_cons.mp h with h1 | h1; exact absurd h1.symm he; exact h1)
        exact ⟨t, by rw [if_neg he]; exact ht⟩

/-- mapExcept over a list of attached elements is mapExcept over the
underlying list. -/
theorem mapExcept_map_val {β : Type} {p : Term → Prop} (f : Term → Except Err β) :
    ∀ (l : List (Subtype p)),
      mapExcept (fun e => f e.1) l = mapExcept f (l.map Subtype.val) := by
  intro l
  induction l with
  | nil => rfl
  | cons a l ih =>
      show (match f a.1 with
            | Except.error e => Except.error e
            | Except.ok b =>
                match mapExcept (fun (e : Subtype p) => f e.1) l with
                | Except.error e => Except.error e
                | Except.ok bs => Except.ok (b :: bs)) =
          mapExcept f ((a :: l).map Subtype.val)
      rw [ih]
      rfl

/-- Unfolding of the chain encoding over a first element. -/
theorem consChain_cons (v : Term) (vs : List Term) :
    consChain (v :: vs) = Term.tup [Term.str "Cons", v, consChain vs] := rfl

/-- The chain encoding of any value list is accepted by is_proper_list. -/
theorem is_proper_list_consChain (vs : List Term) :
    is_proper_list (consChain vs) = .ok true := by
  induction vs with
  | nil => rfl
  | cons v vs ih =>
      rw [consChain_cons]
      show is_proper_list (consChain vs) = .ok true
      exact ih

/-- list_elements recovers exactly the element values of a chain
encoding. -/
theorem list_elements_consChain (vs : List Term) :
    list_elements (consChain vs) = .ok vs := by
  induction vs with
  | nil => rw [show consChain [] = Term.tup [Term.str "Nil"] from rfl, list_elements.eq_1]
  | cons v vs ih =>
      rw [consChain_cons, list_elements.eq_2, ih]
      rfl

/-- What is_proper_list decides, without the error outcomes: it answers
true exactly on wide chains: tuples headed 'Cons' with at least three
components, chained through the third component, ending at ('Nil',). -/
theorem is_proper_list_iff_wideChain (t : Term) :
    is_proper_list t = .ok true ↔ wideChain t = true := by
  induction t using is_proper_list.induct with
  | case1 =>
      rw [is_proper_list.eq_1]
      simp [wideChain]
  | case2 head t2 tail ih =>
      rw [is_proper_list.eq_2, if_pos rfl]
      rw [ih]
      constructor
      · intro h
        simpa [wideChain] using h
      · intro h
        simpa [wideChain] using h
  | case3 rest hshape =>
      rw [is_proper_list.eq_3 _ rest hshape, if_pos rfl]
      rcases rest with _ | ⟨a, _ | ⟨b, rs⟩⟩
      · simp [wideChain]
      · simp [wideChain]
      · exact absurd rfl (fun hh => hshape a b rs hh)
  | case4 x rest hx =>
      have hL : is_proper_list (Term.tup (x :: rest)) =
          .ok (decide (Term.tup (x :: rest) = Term.tup [Term.str "Nil"])) := by
        rcases rest with _ | ⟨a, _ | ⟨b, rs⟩⟩
        · rw [is_proper_list.eq_3 x [] (by intro h1 h2 h3 hh; cases hh), if_neg hx]
        · rw [is_proper_list.eq_3 x [a] (by intro h1 h2 h3 hh; cases hh), if_neg hx]
        · rw [is_proper_list.eq_2, if_neg hx]
      rw [hL]
      rcases x with ⟨l⟩ | ⟨s⟩ | ⟨n⟩ | ⟨i, nm⟩
      · simp [wideChain]
      · have hs : ¬s = "Cons" := fun hh => hx (by rw [hh])
        rcases rest with _ | ⟨a, _ | ⟨b, rs⟩⟩
        · rw [wideChain.eq_3 s [] (by intro h1 h2 h3 hh; cases hh), if_neg hs]
          simp
        · rw [wideChain.eq_3 s [a] (by intro h1 h2 h3 hh; cases hh), if_neg hs]
          simp
        · rw [wideChain.eq_2, if_neg hs]
          simp
      · simp [wideChain]
      · simp [wideChain]
  | case5 s =>
      rw [is_proper_list.eq_4]
      simp [wideChain]
  | case6 n =>
      rw [is_proper_list.eq_5]
      simp [wideChain]
  | case7 i nm =>
      rw [is_proper_list.eq_6]
      simp [wideChain]

/-- The evaluator of mk_call returns its suspension at once: the counter
is unchanged, nothing is evaluated, nothing is looked up. -/
theorem mk_call_ev (sym : String) (ts : List (Compiled Term))
    (args : List Term) (env : VarEnv) (c : Nat) :
    (mk_call sym ts).2 args env c =
      .ok (.call sym (fun c' => (collect ts).2 args env c'), c) := rfl

/-- Evaluating a sequence of compiled calls: every call contributes its
suspension immediately, the counter never moves. -/
theorem evalEvs_calls (args : List Term) (env : VarEnv) :
    ∀ (cs : List (String × List (Compiled Term))) (c : Nat),
      evalEvs ((cs.map (fun p => mk_call p.1 p.2)).map Prod.snd) args env c =
        .ok (cs.map (fun p => Goal.call p.1 (fun c' => (collect p.2).2 args env c')), c) := by
  intro cs
  induction cs with
  | nil => intro c; rfl
  | cons p cs ih =>
      intro c
      simp only [List.map_cons, evalEvs, mk_call_ev, ih c]

/-- Looking a key up in an association list built by tagging each key
with a function of it recovers that function's value. -/
theorem alookup_map_self {β : Type} (f : String → β) :
    ∀ (syms : List String) (sym : String) (fn : β),
      alookup sym (syms.map (fun s => (s, f s))) = some fn → fn = f sym := by
  intro syms
  induction syms with
  | nil => intro sym fn h; cases h
  | cons a as ih =>
      intro sym fn h
      by_cases he : a = sym
      · subst he
        have : (if a = a then some (f a) else alookup a (as.map (fun s => (s, f s)))) = some fn := h
        rw [if_pos rfl] at this
        injection this with h1
        exact h1.symm
      · have : (if a = sym then some (f a) else alookup sym (as.map (fun s => (s, f s)))) = some fn := h
        rw [if_neg he] at this
        exact ih sym fn this

/-- The relation collect_rules binds a symbol to is make_function over
that symbol's clauses gathered in declaration order. -/
theorem collect_rules_lookup (rules_seq : List (String × Compiled Goal)) (sym : String) (fn : Fn)
    (h : alookup sym (collect_rules rules_seq) = some fn) :
    fn = make_function sym (clausesFor sym rules_seq) :=
  alookup_map_self (fun s => make_function s (clausesFor s rules_seq)) (symbolsOf rules_seq) sym fn h

/-- The printer renders a string scalar as itself (str() of a Python
string). -/
theorem unparse_str (s : String) : unparse (Term.str s) = .ok s := by
  rw [unparse.eq_5]
  rfl

/-- Rendering a genuine chain: when every element renders, the chain
prints as the bracketed comma-join of the rendered elements. -/
theorem unparse_consChain (vs : List Term) (ss : List String)
    (h : mapExcept unparse vs = .ok ss) :
    unparse (consChain vs) = .ok ("[" ++ String.intercalate ", " ss ++ "]") := by
  cases vs with
  | nil =>
      cases h
      rw [show consChain [] = Term.tup [Term.str "Nil"] from rfl, unparse.eq_2]
      rfl
  | cons v vs' =>
      rw [consChain_cons]
      rw [unparse.eq_4 (Term.str "Cons") [v, consChain vs'] (by intro hh; cases hh)]
      have hipl : is_proper_list (Term.tup [Term.str "Cons", v, consChain vs']) = .ok true := by
        rw [← consChain_cons]
        exact is_proper_list_consChain _
      rw [hipl]
      show (match hl : list_elements (Term.tup [Term.str "Cons", v, consChain vs']) with
            | Except.error e => Except.error e
            | Except.ok es =>
                match mapExcept (fun e => unparse e.1) es.attach with
                | Except.error e => Except.error e
                | Except.ok ss => Except.ok ("[" ++ String.intercalate ", " ss ++ "]")) =
          Except.ok ("[" ++ String.intercalate ", " ss ++ "]")
      split
      · rename_i e heq
        rw [← consChain_cons, list_elements_consChain] at heq
        cases heq
      · rename_i es heq
        rw [← consChain_cons, list_elements_consChain] at heq
        injection heq with heq
        subst heq
        rw [mapExcept_map_val unparse ((v :: vs').attach), List.attach_map_subtype_val, h]

/-- Rendering a compound with zero arguments whose symbol is neither of
the two reserved list constructors: the bare symbol name. -/
theorem unparse_bare (s : String) (hc : ¬s = "Cons") (hn : ¬s = "Nil") :
    unparse (Term.tup [Term.str s]) = .ok s := by
  have hipl : is_proper_list (Term.tup [Term.str s]) = .ok false := by
    rw [is_proper_list.eq_3 (Term.str s) [] (by intro h1 h2 h3 hh; cases hh)]
    rw [if_neg (show ¬Term.str s = Term.str "Cons" from fun hh => hc (by injection hh))]
    simp [hn]
  rw [unparse.eq_2, hipl]

/-- Rendering a compound with one or more arguments that is not accepted
as a proper list: the parenthesised symbol followed by one
space-prefixed rendered argument each. -/
theorem unparse_compound (s : String) (x : Term) (rest : List Term) (ss : List String)
    (hfalse : is_proper_list (Term.tup (Term.str s :: x :: rest)) = .ok false)
    (hss : mapExcept unparse (x :: rest) = .ok ss) :
    unparse (Term.tup (Term.str s :: x :: rest)) =
      .ok ("(" ++ s ++ String.join (ss.map (fun a => " " ++ a)) ++ ")") := by
  rw [unparse.eq_4 (Term.str s) (x :: rest) (by intro hh; cases hh), hfalse]
  show (match mapExcept (fun e => unparse e.1) ((x :: rest).attach) with
        | Except.error e => Except.error e
        | Except.ok ss =>
            Except.ok ("(" ++ pyStr (Term.str s) ++ String.join (List.map (fun a => " " ++ a) ss) ++ ")")) =
      Except.ok ("(" ++ s ++ String.join (ss.map (fun a => " " ++ a)) ++ ")")
  rw [mapExcept_map_val unparse ((x :: rest).attach), List.attach_map_subtype_val, hss]
  rfl

/-- C1, counterexample: the claim asserts that a variable name occurring
in two different clauses of one predicate is mapped to two distinct
Logic Variables within a single invocation.  In the program "P(x). P(x)."
one invocation of P (call argument 5, counter 0) builds the clause
disjunction in which both clauses' head patterns hold the very same
variable, Var 0 "x": make_function builds a single environment per
invocation from the union of all clauses' free variables and hands it to
every clause evaluator (parser.py:120-124), so the clauses share their
variables. -/
theorem c1_counterexample :
    (match applyFn c1prog "P" [Term.int 5] 0 with
     | .ok (g, _) => (disjuncts g).map clauseHead
     | .error _ => []) =
      [some (Term.tup [Term.var 0 "x"]), some (Term.tup [Term.var 0 "x"])] := rfl

/-- C1 (amended): all clauses of a predicate share one variable
environment, built once per invocation from the union of the clauses'
free-variable sets; a name occurring in two clauses is mapped to the
same Logic Variable within that invocation, and distinct invocations
allocate distinct, fresh variables (the identity depends on the incoming
allocation counter c, which every invocation advances). -/
theorem c1_shared_clause_env (args : List Term) (c : Nat) :
    applyFn c1prog "P" args c =
      .ok (.either (.both (.eq (.tup args) (.tup [Term.var c "x"])) .succeed)
            (.either (.both (.eq (.tup args) (.tup [Term.var c "x"])) .succeed) .fail),
          c + 1) := rfl

/-- C2: a compiled predicate call evaluates to a suspension immediately:
the evaluator returns the Goal.call node with the allocation counter
untouched and the argument evaluation deferred, for any symbol — defined
or not.  Only when the search driver pulls on the suspension is the
relation looked up in the database (failing with the KeyError that
signals an undefined relation exactly then), the delayed arguments
evaluated, and the relation invoked — and the forced suspension first
emits its bookkeeping sentinel in front of the relation's goal, so goal
construction never unfolds a recursive predicate eagerly. -/
theorem c2_call_suspended :
    (∀ (sym : String) (ts : List (Compiled Term)) (args : List Term) (env : VarEnv) (c : Nat),
      (mk_call sym ts).2 args env c =
        .ok (.call sym (fun c' => (collect ts).2 args env c'), c)) ∧
    (∀ (prog : Program) (f : Nat) (sym : String)
        (th : Nat → Except Err (List Term × Nat)) (st : State) (c : Nat),
      alookup sym prog = none →
      pull prog (f + 1) (.srun (.call sym th) st) c = .error (.keyError sym)) ∧
    (∀ (prog : Program) (f : Nat) (sym : String)
        (th : Nat → Except Err (List Term × Nat)) (st : State) (c : Nat)
        (fn : Fn) (vs : List Term) (c1 : Nat) (g : Goal) (c2 : Nat),
      alookup sym prog = some fn → th c = .ok (vs, c1) → fn vs c1 = .ok (g, c2) →
      pull prog (f + 1) (.srun (.call sym th) st) c = .ok (some (none, .srun g st), c2)) := by
  refine ⟨fun sym ts args env c => mk_call_ev sym ts args env c, ?_, ?_⟩
  · intro prog f sym th st c h
    rw [pull_call, h]
  · intro prog f sym th st c fn vs c1 g c2 h1 h2 h3
    rw [pull_call]
    simp only [h1, h2, h3]

/-- C2 witness: in the member program, forcing the suspended recursive
call "Member x r" looks Member up, runs the relation, and yields the
sentinel followed by the unfolded goal — at a concrete fuel, state and
counter; the construction itself returned instantly. -/
theorem c2_witness :
    (mk_call "Member" []).2 [] [] 7 =
      .ok (.call "Member" (fun c' => (collect ([] : List (Compiled Term))).2 [] [] c'), 7) ∧
    pull [] 3 (.srun (.call "Undefined" (fun c => .ok ([], c))) emptyS) 0 =
      .error (.keyError "Undefined") ∧
    (match applyFn memberProg "Member" [Term.int 5, Term.tup [Term.str "Nil"]] 0 with
     | .ok (g, c2) =>
        pull memberProg 3 (.srun (.call "Member" (fun c => .ok ([Term.int 5, Term.tup [Term.str "Nil"]], c))) emptyS) 0 =
          .ok (some (none, .srun g emptyS), c2)
     | .error _ => False) :=
  ⟨c2_call_suspended.1 "Member" [] [] [] 7,
   c2_call_suspended.2.1 [] 2 "Undefined" (fun c => .ok ([], c)) emptyS 0 rfl,
   c2_call_suspended.2.2 memberProg 2 "Member" (fun c => .ok ([Term.int 5, Term.tup [Term.str "Nil"]], c))
     emptyS 0 _ [Term.int 5, Term.tup [Term.str "Nil"]] 0 _ _ rfl rfl rfl⟩

/-- C5: compiling a fact is literally compiling a rule whose body is the
empty conjunction (mk_fact(predicate) = mk_rule(predicate, mk_calls())),
the empty conjunction's evaluator is foldr(both, succeed, ()) = succeed,
the identity-success goal, and running that goal succeeds exactly once
with the incoming state untouched. -/
theorem c5_fact_is_empty_rule :
    (∀ (predicate : String × Compiled (List Term)),
       mk_fact predicate = mk_rule predicate (mk_calls [])) ∧
    (∀ (args : List Term) (env : VarEnv) (c : Nat),
       (mk_calls []).2 args env c = .ok (.succeed, c)) ∧
    (∀ (prog : Program) (f : Nat) (st : State) (c : Nat),
       drive prog (f + 2) none (.srun .succeed st) c = .ok ([st], c)) :=
  ⟨fun _ => rfl, fun _ _ _ => rfl, fun prog f st c => drive_run_succeed prog f st c⟩

/-- C6: a list literal's free-variable set is the union of its elements'
free-variable sets, and its evaluator builds the right-nested
('Cons', v1, ('Cons', ..., ('Nil',))) chain over exactly the values the
element evaluators produce left to right; the empty literal evaluates to
('Nil',). -/
theorem c6_list_literal (ts : List (Compiled Term)) :
    (∀ x, x ∈ (mk_list ts).1 ↔ ∃ p ∈ ts, x ∈ p.1) ∧
    (∀ (args : List Term) (env : VarEnv) (c : Nat) (vs : List Term) (c' : Nat),
       evalEvs (ts.map Prod.snd) args env c = .ok (vs, c') →
       (mk_list ts).2 args env c = .ok (consChain vs, c')) ∧
    (∀ (args : List Term) (env : VarEnv) (c : Nat),
       (mk_list []).2 args env c = .ok (Term.tup [Term.str "Nil"], c)) :=
  ⟨fun x => mk_list_fvs x ts,
   fun args env c vs c' h => mk_list_ev ts args env c vs c' h,
   fun _ _ _ => rfl⟩

/-- C6 witness: the literal [5, _] evaluates to
('Cons', 5, ('Cons', Var 0, ('Nil',))) with one variable allocated. -/
theorem c6_witness :
    (mk_list [mk_literal (.int 5), mk_anon "_"]).2 [] [] 0 =
      .ok (Term.tup [Term.str "Cons", Term.int 5,
            Term.tup [Term.str "Cons", Term.var 0 "_", Term.tup [Term.str "Nil"]]], 1) :=
  (c6_list_literal [mk_literal (.int 5), mk_anon "_"]).2.1 [] [] 0
    [Term.int 5, Term.var 0 "_"] 1 rfl

/-- C7: an anonymous variable has an empty free-variable set and its
evaluator allocates a brand-new Logic Variable on every evaluation: the
result carries the current allocation counter as its identity and bumps
the counter, so two successive evaluations — same occurrence or not,
same written name or not — yield distinct Logic Variables that can never
share bindings by identity. -/
theorem c7_anon_fresh (name name' : String) (args args' : List Term)
    (env env' : VarEnv) (c : Nat) :
    (mk_anon name).1 = [] ∧
    (mk_anon name).2 args env c = .ok (Term.var c name, c + 1) ∧
    (mk_anon name').2 args' env' (c + 1) = .ok (Term.var (c + 1) name', c + 2) ∧
    Term.var c name ≠ Term.var (c + 1) name' :=
  ⟨rfl, rfl, rfl, by intro h; injection h with h1 h2; omega⟩

/-- C9, counterexample: is_proper_list never checks that a 'Cons' tuple
has exactly three components — it follows index 2 of any tuple headed
'Cons', so the four-component tuple ('Cons', 5, ('Nil',), 7) is accepted
as a proper list even though it is not a chain of 3-element pair
compounds; unparse then raises the AssertionError of list_elements
instead of rendering it, so neither half of the claim's characterization
holds at this input. -/
theorem c9_counterexample :
    is_proper_list (Term.tup [Term.str "Cons", Term.int 5, Term.tup [Term.str "Nil"], Term.int 7]) =
      .ok true ∧
    specChain (Term.tup [Term.str "Cons", Term.int 5, Term.tup [Term.str "Nil"], Term.int 7]) =
      false ∧
    unparse (Term.tup [Term.str "Cons", Term.int 5, Term.tup [Term.str "Nil"], Term.int 7]) =
      .error .assertionError :=
  ⟨rfl, rfl, by
    rw [unparse.eq_4 (Term.str "Cons") [Term.int 5, Term.tup [Term.str "Nil"], Term.int 7]
      (by intro hh; cases hh)]
    rfl⟩

/-- C9 (amended): is_proper_list holds exactly when the term is a chain
of tuples that are headed by 'Cons' and have at least three components,
linked through their third component and terminating in ('Nil',) —
3-element pair compounds are the intended case but wider tuples pass
too, and unparse fails an assertion on those when extracting elements.
On genuine chains unparse renders the bracketed comma-join of the
rendered elements; a compound with zero arguments renders as its bare
symbol name provided the symbol is neither reserved list constructor
('Nil' alone renders as the empty list, and a bare 'Cons' raises an
index error inside is_proper_list); and a compound with one or more
arguments that is not accepted as a proper list renders as the
parenthesised symbol followed by one space-prefixed rendered argument
each. -/
theorem c9_printer :
    (∀ t, is_proper_list t = .ok true ↔ wideChain t = true) ∧
    (∀ (vs : List Term) (ss : List String), mapExcept unparse vs = .ok ss →
       unparse (consChain vs) = .ok ("[" ++ String.intercalate ", " ss ++ "]")) ∧
    (∀ s, ¬s = "Cons" → ¬s = "Nil" → unparse (Term.tup [Term.str s]) = .ok s) ∧
    (∀ (s : String) (x : Term) (rest : List Term) (ss : List String),
       is_proper_list (Term.tup (Term.str s :: x :: rest)) = .ok false →
       mapExcept unparse (x :: rest) = .ok ss →
       unparse (Term.tup (Term.str s :: x :: rest)) =
         .ok ("(" ++ s ++ String.join (ss.map (fun a => " " ++ a)) ++ ")")) :=
  ⟨is_proper_list_iff_wideChain, unparse_consChain, unparse_bare, unparse_compound⟩

/-- C9 witness: the chain of "A" and "B" renders as "[A, B]", the bare
compound ('Foo',) renders as "Foo", and ('H', "x", "y") renders as
"(H x y)". -/
theorem c9_witness :
    unparse (consChain [Term.str "A", Term.str "B"]) =
      .ok ("[" ++ String.intercalate ", " ["A", "B"] ++ "]") ∧
    unparse (Term.tup [Term.str "Foo"]) = .ok "Foo" ∧
    unparse (Term.tup [Term.str "H", Term.str "x", Term.str "y"]) =
      .ok ("(" ++ "H" ++ String.join (["x", "y"].map (fun a => " " ++ a)) ++ ")") :=
  ⟨c9_printer.2.1 [Term.str "A", Term.str "B"] ["A", "B"]
     (by simp only [mapExcept, unparse_str]),
   c9_printer.2.2.1 "Foo" (by decide) (by decide),
   c9_printer.2.2.2 "H" (Term.str "x") [Term.str "y"] ["x", "y"] rfl
     (by simp only [mapExcept, unparse_str])⟩

/-- mapExcept reports the error of the first failing element once every
earlier element succeeds. -/
theorem mapExcept_error_at {α β : Type} (f : α → Except Err β) :
    ∀ (pre : List α) (x : α) (post : List α) (e : Err),
      (∀ v ∈ pre, ∃ b, f v = .ok b) → f x = .error e →
      mapExcept f (pre ++ x :: post) = .error e := by
  intro pre
  induction pre with
  | nil =>
      intro x post e _ hx
      show (match f x with
            | Except.error e => Except.error e
            | Except.ok b =>
                match mapExcept f post with
                | Except.error e => Except.error e
                | Except.ok bs => Except.ok (b :: bs)) = Except.error e
      rw [hx]
  | cons a as ih =>
      intro x post e hall hx
      obtain ⟨b, hb⟩ := hall a (by simp)
      show (match f a with
            | Except.error e => Except.error e
            | Except.ok b =>
                match mapExcept f (as ++ x :: post) with
                | Except.error e => Except.error e
                | Except.ok bs => Except.ok (b :: bs)) = Except.error e
      rw [hb, ih x post e (fun v hv => hall v (by simp [hv])) hx]

/-- Running a query through ask, given the query's evaluated goal:
the reported rows are read off the driven states. -/
theorem ask_drive (prog : Program) (reifyF : Term → State → Term) (q : Compiled Goal)
    (vars : Option (List String)) (n : Option Nat) (fuel : Nat) {goal : Goal} {c1 : Nat}
    (h1 : q.2 [] (freshEnv q.1 0).1 (freshEnv q.1 0).2 = .ok (goal, c1)) :
    Program.ask prog reifyF q vars n fuel =
      match drive prog fuel n (.srun goal emptyS) c1 with
      | .error e => .error e
      | .ok (states, _) =>
          mapExcept (fun st =>
            mapExcept (fun name =>
              match alookup name (freshEnv q.1 0).1 with
              | some v => Except.ok (name, reifyF v st)
              | none => Except.error (Err.keyError name)) (vars.getD q.1)) states := by
  show (match q.2 [] (freshEnv q.1 0).1 (freshEnv q.1 0).2 with
    | Except.error e => Except.error e
    | Except.ok (goal, c1) =>
        match drive prog fuel n (.srun goal emptyS) c1 with
        | Except.error e => Except.error e
        | Except.ok (states, _) =>
            mapExcept (fun st =>
              mapExcept (fun name =>
                match alookup name (freshEnv q.1 0).1 with
                | some v => Except.ok (name, reifyF v st)
                | none => Except.error (Err.keyError name)) (vars.getD q.1)) states) = _
  rw [h1]

/-- The goal a compiled sequence of calls evaluates to: the foldr of both
over the calls' suspensions, with the counter unchanged. -/
theorem mk_calls_ev (cs : List (String × List (Compiled Term))) (args : List Term)
    (env : VarEnv) (c : Nat) :
    (mk_calls (cs.map (fun p => mk_call p.1 p.2))).2 args env c =
      .ok (foldr Goal.both Goal.succeed
        (cs.map (fun p => Goal.call p.1 (fun c' => (collect p.2).2 args env c'))), c) := by
  show (match evalEvs ((cs.map (fun p => mk_call p.1 p.2)).map Prod.snd) args env c with
    | Except.error e => Except.error e
    | Except.ok (gs, c1) => Except.ok (foldr Goal.both Goal.succeed gs, c1)) = _
  rw [evalEvs_calls]

/-- C3: corrected form.  An undefined predicate symbol raises the
Undefined-Relation (key) error only when the search actually forces the
suspended call: (1) a query whose first conjunct calls a symbol absent
from the database errors with that symbol's KeyError as soon as the
driver takes its first step, before any results are produced; (2) a query
whose goal runs to exhaustion with no solutions yields the empty result
list and no error.  (As stated the claim is refuted by c3_counterexample:
a dead call to an absent symbol after a failing conjunct is never forced,
so the query returns empty instead of erroring.) -/
theorem c3_undefined_relation :
    (∀ (prog : Program) (reifyF : Term → State → Term) (sym : String)
        (ts : List (Compiled Term)) (more : List (String × List (Compiled Term)))
        (vars : Option (List String)) (f : Nat),
      alookup sym prog = none →
      Program.ask prog reifyF
        (mk_calls (((sym, ts) :: more).map (fun p => mk_call p.1 p.2)))
        vars none (f + 1 + 1 + 1) = .error (.keyError sym)) ∧
    (∀ (prog : Program) (reifyF : Term → State → Term) (q : Compiled Goal)
        (vars : Option (List String)) (fuel : Nat) (goal : Goal) (c1 c2 : Nat),
      q.2 [] (freshEnv q.1 0).1 (freshEnv q.1 0).2 = .ok (goal, c1) →
      drive prog fuel none (.srun goal emptyS) c1 = .ok ([], c2) →
      Program.ask prog reifyF q vars none fuel = .ok []) := by
  constructor
  · intro prog reifyF sym ts more vars f halo
    rw [ask_drive prog reifyF _ vars none (f + 1 + 1 + 1)
          (mk_calls_ev ((sym, ts) :: more) [] _ _)]
    simp only [List.map_cons, foldr, List.foldr_cons]
    rw [drive_succ_none prog (f + 1 + 1), pull_both prog (f + 1 + 1),
        pull_sbind prog (f + 1), pull_call prog f, halo]
  · intro prog reifyF q vars fuel goal c1 c2 h1 h2
    rw [ask_drive prog reifyF q vars none fuel h1, h2]
    rfl

/-- C3, counterexample to the claim as stated: the query "P (B), Undef x"
calls the symbol Undef, which is absent from the database of "P (A).",
yet ask returns the empty result sequence with no error — the first
conjunct fails to unify, so the dead call to Undef is never forced and
no Undefined-Relation error surfaces. -/
theorem c3_counterexample :
    alookup "Undef" c3prog = none ∧
    Program.ask c3prog reifyId c3deadQuery none none 30 = .ok [] :=
  ⟨rfl, rfl⟩

/-- C3 witness: the query "Undef x" over the database "P (A)." errors
with KeyError Undef, and the solution-free query "P (B)" returns the
empty sequence. -/
theorem c3_witness :
    Program.ask c3prog reifyId
      (mk_calls ([("Undef", [mk_variable "x"])].map (fun p => mk_call p.1 p.2)))
      none none 3 = .error (.keyError "Undef") ∧
    Program.ask c3prog reifyId c3emptyQuery none none 30 = .ok [] :=
  ⟨c3_undefined_relation.1 c3prog reifyId "Undef" [mk_variable "x"] [] none 0 rfl,
   c3_undefined_relation.2 c3prog reifyId c3emptyQuery none 30
     (Goal.both (Goal.call "P" (fun c' => (collect [mk_compound "B" []]).2 [] [] c'))
       Goal.succeed) 0 0 rfl rfl⟩

/-- C4: a looked-up relation is make_function over the symbol's clauses
in declaration order; applying make_function evaluates every clause's
goal (one shared fresh environment per invocation) and folds the goals
with foldr(either, fail, ...); zero clauses give the identity-failure
goal, which never succeeds; and when each clause goal runs to completion
the folded goal runs to completion yielding the concatenation of all the
clauses' solutions in clause order — every clause is explored, not only
the first that succeeds. -/
theorem c4_disjunction_fold :
    (∀ (rules_seq : List (String × Compiled Goal)) (sym : String) (fn : Fn),
      alookup sym (collect_rules rules_seq) = some fn →
      fn = make_function sym (clausesFor sym rules_seq)) ∧
    (∀ (sym : String) (pairs : List (Compiled Goal)) (args : List Term) (c : Nat),
      make_function sym pairs args c =
        match clauseGoals pairs args c with
        | .error e => .error e
        | .ok (gs, c2) => .ok (foldr Goal.either Goal.fail gs, c2)) ∧
    (∀ (sym : String) (args : List Term) (c : Nat),
      make_function sym [] args c = .ok (.fail, c)) ∧
    (∀ (prog : Program) (f : Nat) (st : State) (c : Nat),
      drive prog (f + 2) none (.srun .fail st) c = .ok ([], c)) ∧
    (∀ (prog : Program) (st : State) (gs : List Goal) (c : Nat) (L : List State) (c' : Nat),
      RunsAll prog st gs c L c' →
      ∃ F, drive prog F none (.srun (foldr Goal.either Goal.fail gs) st) c = .ok (L, c')) :=
  ⟨collect_rules_lookup,
   fun _ pairs args c => rfl,
   fun _ _ _ => rfl,
   drive_run_fail,
   runsAll_fold⟩

/-- C4 witness: the Member relation is make_function over Member's two
clauses, and a two-clause fold (one always-succeeding clause, one
always-failing) runs to completion with exactly the succeeding clause's
solution — both clauses explored, solutions concatenated in clause
order. -/
theorem c4_witness :
    (match alookup "Member" memberProg with
     | some fn => fn = make_function "Member" (clausesFor "Member" memberRules)
     | none => False) ∧
    (∃ F, drive ([] : Program) F none
        (.srun (foldr Goal.either Goal.fail [Goal.succeed, Goal.fail]) emptyS) 0 =
      .ok ([emptyS], 0)) :=
  ⟨c4_disjunction_fold.1 memberRules "Member"
     (make_function "Member" (clausesFor "Member" memberRules)) rfl,
   by
    obtain ⟨F, hF⟩ := c4_disjunction_fold.2.2.2.2 [] emptyS [Goal.succeed, Goal.fail] 0
      ([emptyS] ++ ([] ++ [])) 0
      (RunsAll.cons _ _ _ _ _ _ _ 2 (drive_run_succeed [] 0 emptyS 0)
        (RunsAll.cons _ _ _ _ _ _ _ 2 (drive_run_fail [] 0 emptyS 0) (RunsAll.nil 0)))
    exact ⟨F, hF⟩⟩

/-- A query whose evaluation itself errors surfaces that error from ask
regardless of limit or fuel. -/
theorem ask_ev_error (prog : Program) (reifyF : Term → State → Term) (q : Compiled Goal)
    (vars : Option (List String)) (n : Option Nat) (fuel : Nat) (e : Err)
    (h1 : q.2 [] (freshEnv q.1 0).1 (freshEnv q.1 0).2 = .error e) :
    Program.ask prog reifyF q vars n fuel = .error e := by
  show (match q.2 [] (freshEnv q.1 0).1 (freshEnv q.1 0).2 with
    | Except.error e => Except.error e
    | Except.ok (goal, c1) =>
        match drive prog fuel n (.srun goal emptyS) c1 with
        | Except.error e => Except.error e
        | Except.ok (states, _) =>
            mapExcept (fun st =>
              mapExcept (fun name =>
                match alookup name (freshEnv q.1 0).1 with
                | some v => Except.ok (name, reifyF v st)
                | none => Except.error (Err.keyError name)) (vars.getD q.1)) states) =
    Except.error e
  rw [h1]

/-- C8: with a result limit n, ask yields exactly the first-n prefix of
the unlimited run's solutions; at the driver level the limited run needs
no more fuel (search work) than the unlimited run that produced the
prefix, and once n states are collected nothing further is demanded; on
the infinite solution space of the open query "Member x a", a limit of
one yields its single requested solution at a fuel where the unlimited
run still exhausts any budget it is given. -/
theorem c8_result_limit :
    (∀ (prog : Program) (reifyF : Term → State → Term) (q : Compiled Goal)
        (vars : Option (List String)) (n fuel : Nat) (L : List (List (String × Term))),
      Program.ask prog reifyF q vars none fuel = .ok L →
      Program.ask prog reifyF q vars (some n) fuel = .ok (L.take n)) ∧
    (∀ (prog : Program) (fuel n : Nat) (s : SStream) (c : Nat) (L : List State) (c' : Nat),
      drive prog fuel none s c = .ok (L, c') →
      ∃ c'', drive prog fuel (some n) s c = .ok (L.take n, c'')) ∧
    (∀ (prog : Program) (fuel : Nat) (s : SStream) (c : Nat),
      drive prog fuel (some 0) s c = .ok ([], c)) ∧
    (Program.ask memberProg reifyId memberOpenQuery none (some 1) 10 =
      .ok [[("x", Term.var 0 "x"), ("a", Term.var 1 "a")]] ∧
     Program.ask memberProg reifyId memberOpenQuery none none 10 = .error .outOfFuel) := by
  refine ⟨?_, drive_prefix, drive_lim0, rfl, rfl⟩
  intro prog reifyF q vars n fuel L h
  cases hq : q.2 [] (freshEnv q.1 0).1 (freshEnv q.1 0).2 with
  | error e =>
      rw [ask_ev_error prog reifyF q vars none fuel e hq] at h
      cases h
  | ok gc =>
      obtain ⟨goal, c1⟩ := gc
      rw [ask_drive prog reifyF q vars none fuel hq] at h
      rw [ask_drive prog reifyF q vars (some n) fuel hq]
      cases hd : drive prog fuel none (.srun goal emptyS) c1 with
      | error e => rw [hd] at h; cases h
      | ok sc =>
          obtain ⟨states, c'⟩ := sc
          rw [hd] at h
          obtain ⟨c'', hd2⟩ := drive_prefix prog fuel n (.srun goal emptyS) c1 states c' hd
          rw [hd2]
          exact mapExcept_take _ states L h n

/-- C8 witness: the ground query "Member x [5, 7]" has two solutions
unlimited; with limit one, ask returns exactly the first of them, and a
zero-limit drive of an already-exhausted stream returns nothing. -/
theorem c8_witness :
    Program.ask memberProg reifyId memberGroundQuery none (some 1) 25 =
      .ok [[("x", Term.var 0 "x")]] ∧
    (∃ c'', drive ([] : Program) 2 (some 0) SStream.nil 0 = .ok ([], c'')) :=
  ⟨c8_result_limit.1 memberProg reifyId memberGroundQuery none 1 25
     [[("x", Term.var 0 "x")], [("x", Term.var 0 "x")]] rfl,
   c8_result_limit.2.1 [] 2 0 SStream.nil 0 [] 0 rfl⟩

/-- C10: when the caller passes an explicit vars collection holding a
name outside the query's free variables (here: names pre of the query's
own variables, then the foreign name), and the query's goal runs to at
least one solution, ask errors with that name's KeyError while building
the first result row — the name misses the fresh-variable map, which is
built only from the query's free variables; it is neither reported as
unresolved nor ignored. -/
theorem c10_extra_var_keyerror :
    ∀ (prog : Program) (reifyF : Term → State → Term) (q : Compiled Goal)
      (pre post : List String) (name : String) (n : Option Nat) (fuel : Nat)
      (goal : Goal) (c1 : Nat) (st : State) (states : List State) (c' : Nat),
      q.2 [] (freshEnv q.1 0).1 (freshEnv q.1 0).2 = .ok (goal, c1) →
      drive prog fuel n (.srun goal emptyS) c1 = .ok (st :: states, c') →
      (∀ v ∈ pre, v ∈ q.1) →
      name ∉ q.1 →
      Program.ask prog reifyF q (some (pre ++ name :: post)) n fuel =
        .error (.keyError name) := by
  intro prog reifyF q pre post name n fuel goal c1 st states c' h1 h2 hpre hname
  rw [ask_drive prog reifyF q (some (pre ++ name :: post)) n fuel h1, h2]
  show mapExcept (fun s0 =>
      mapExcept (fun nm =>
        match alookup nm (freshEnv q.1 0).1 with
        | some v => Except.ok (nm, reifyF v s0)
        | none => Except.error (Err.keyError nm)) (pre ++ name :: post)) (st :: states) =
    Except.error (Err.keyError name)
  refine mapExcept_error_at _ [] st states (Err.keyError name)
    (fun v hv => absurd hv (List.not_mem_nil v)) ?_
  refine mapExcept_error_at _ pre name post (Err.keyError name) ?_ ?_
  · intro v hv
    obtain ⟨t, ht⟩ := freshEnv_alookup_mem v q.1 0 (hpre v hv)
    refine ⟨(v, reifyF t st), ?_⟩
    show (match alookup v (freshEnv q.1 0).1 with
          | some v' => Except.ok (v, reifyF v' st)
          | none => Except.error (Err.keyError v)) = Except.ok (v, reifyF t st)
    rw [ht]
  · show (match alookup name (freshEnv q.1 0).1 with
          | some v => Except.ok (name, reifyF v st)
          | none => Except.error (Err.keyError name)) = Except.error (Err.keyError name)
    rw [freshEnv_alookup_none name q.1 0 hname]

/-- C10 witness: asking "Member x [5, 7]" (which has two solutions) to
report the variable zzz, which the query never mentions, errors with
KeyError zzz. -/
theorem c10_witness :
    Program.ask memberProg reifyId memberGroundQuery (some ["zzz"]) none 30 =
      .error (.keyError "zzz") :=
  c10_extra_var_keyerror memberProg reifyId memberGroundQuery [] [] "zzz" none 30
    _ _ _ _ _ rfl rfl (fun v hv => absurd hv (List.not_mem_nil v)) (by decide)

end Pytho
